import Mathlib

/-!
Verification of the mock in-process NATS-style client
(src/lib/MockNatsClient.js) against its natural-language specification.

The JavaScript class is shallowly embedded: the mutable client object
becomes an explicit `State` record, every method becomes a pure function
from `State` to `State` (returning its JS return value and the list of
observable callback invocations), and the Node event loop (setTimeout /
process.nextTick / event emission) becomes an explicit list of scheduled
tasks fired by an `elapse` operation on a virtual clock.  JavaScript
values that can flow through `publish` are embedded as the inductive
`JSVal`; `JSON.stringify` / `JSON.parse` / `Buffer.from` are modelled by
executable Lean functions.
-/

namespace MockNats

/-- Split a string on the dot delimiter, JavaScript-`split`-style:
the empty string yields `[""]`, a trailing dot yields a trailing empty
segment. -/
def splitDot (s : String) : List String :=
  (s.data.foldr
    (fun c acc =>
      if c = '.' then [] :: acc
      else
        match acc with
        | seg :: rest => (c :: seg) :: rest
        | [] => [[c]])
    [[]]).map (fun l => String.mk l)

/-- Segment-wise subject matching.  Modelled from the spec: the file
src/lib/utils.js (function matchSubject) is required by
MockNatsClient.js but is not part of src/; this definition follows
spec section 4.3 step 3.  A pattern segment "*" matches exactly one
arbitrary subject segment; a final pattern segment ">" matches
one-or-more trailing subject segments; every other segment matches
literally, position for position; segment counts align exactly except
for the trailing ">" case. -/
def segsMatch : List String → List String → Bool
  | [], [] => true
  | [], _ :: _ => false
  | _ :: _, [] => false
  | s :: ss, p :: ps =>
    if p == ">" && ps.isEmpty then true
    else (p == "*" || p == s) && segsMatch ss ps

/-- Modelled from the spec: utils.matchSubject(subject, pattern) as used
by MockNatsClient._findSubscribesBySubject (src/lib/utils.js is absent
from src/). -/
def matchSubject (subject pattern : String) : Bool :=
  segsMatch (splitDot subject) (splitDot pattern)

/-- One pattern segment matches one subject segment: either the single
wildcard or a literal, position-for-position match. -/
def LitOrStar (p s : String) : Prop := p = "*" ∨ p = s

/-- Declarative rendering of the claimed matching rules: either the
segment counts align exactly and every pattern segment is "*" or a
literal match, or the pattern ends in ">" and the remaining pattern
segments match a proper prefix of the subject, leaving one-or-more
trailing subject segments for the ">". -/
def MatchSpec (ss ps : List String) : Prop :=
  List.Forall₂ LitOrStar ps ss ∨
  ∃ qs us ts, ps = qs ++ [">"] ∧ ss = us ++ ts ∧ ts ≠ [] ∧
    List.Forall₂ LitOrStar qs us

/-- JavaScript values that can flow through `publish`: strings, integer
numbers, booleans, null, objects, arrays, Node buffers, `undefined`,
and functions.  Objects are encoded as an inline cons list of fields
(`objCons key value rest`, ending in `objNil`), and arrays likewise
(`arrCons value rest`, ending in `arrNil`); so the object x:1 is
`objCons "x" (int 1) objNil`.  Buffer contents are carried as the
character list of the text they decode to, which mirrors Node's
buffer/string round trip exactly. -/
inductive JSVal where
  | str (s : String)
  | int (n : Int)
  | bool (b : Bool)
  | null
  | objNil
  | objCons (key : String) (val : JSVal) (rest : JSVal)
  | arrNil
  | arrCons (val : JSVal) (rest : JSVal)
  | buf (bytes : List Char)
  | undef
  | func
deriving Repr, DecidableEq

/-- JSON escaping of a single character inside a string literal. -/
def escapeChar (c : Char) : String :=
  if c = '"' then "\\\""
  else if c = '\\' then "\\\\"
  else if c = '\n' then "\\n"
  else if c = '\t' then "\\t"
  else if c = '\r' then "\\r"
  else String.mk [c]

/-- JSON string literal: quotes around the escaped content. -/
def jsonQuote (s : String) : String :=
  "\"" ++ String.join (s.data.map escapeChar) ++ "\""

/-- Core of `JSON.stringify`, one structural recursion over the value:
for ordinary values it yields their JSON text (`none` models the
JavaScript result `undefined`, returned for `undefined` and functions,
which are not JSON-serializable); for an object cons chain it yields
the comma-joined "key":value field text without the surrounding
braces (fields with non-serializable values are omitted), and for an
array cons chain the comma-joined item text without the surrounding
brackets (non-serializable items become null); the wrapper
`jsonStringify` adds the braces/brackets.  A Buffer serializes via its
`toJSON` to an object with "type" and "data" fields. -/
def jsonStringifyCore : JSVal → Option String
  | .str s => some (jsonQuote s)
  | .int n => some (toString n)
  | .bool b => some (cond b "true" "false")
  | .null => some "null"
  | .undef => none
  | .func => none
  | .buf b =>
    some ("\x7b\"type\":\"Buffer\",\"data\":["
      ++ String.intercalate "," (b.map (fun c => toString c.toNat)) ++ "]\x7d")
  | .objNil => some ""
  | .objCons k v rest =>
    let vtext : Option String :=
      match v with
      | .objCons key val r =>
        (jsonStringifyCore (.objCons key val r)).map (fun t => "\x7b" ++ t ++ "\x7d")
      | .objNil => some "\x7b\x7d"
      | .arrCons val r =>
        (jsonStringifyCore (.arrCons val r)).map (fun t => "[" ++ t ++ "]")
      | .arrNil => some "[]"
      | other => jsonStringifyCore other
    let rtext : String :=
      match jsonStringifyCore rest with
      | some t => t
      | none => ""
    match vtext with
    | none => some rtext
    | some tv =>
      some (jsonQuote k ++ ":" ++ tv ++ (if rtext = "" then "" else "," ++ rtext))
  | .arrNil => some ""
  | .arrCons v rest =>
    let vtext : String :=
      match v with
      | .objCons key val r =>
        (match jsonStringifyCore (.objCons key val r) with
         | some t => "\x7b" ++ t ++ "\x7d"
         | none => "null")
      | .objNil => "\x7b\x7d"
      | .arrCons val r =>
        (match jsonStringifyCore (.arrCons val r) with
         | some t => "[" ++ t ++ "]"
         | none => "null")
      | .arrNil => "[]"
      | other =>
        (match jsonStringifyCore other with
         | some t => t
         | none => "null")
    let rtext : String :=
      match jsonStringifyCore rest with
      | some t => t
      | none => ""
    some (vtext ++ (if rtext = "" then "" else "," ++ rtext))

/-- `JSON.stringify`: braces around an object's field text, brackets
around an array's item text, the core text otherwise. -/
def jsonStringify : JSVal → Option String
  | .objNil => some "\x7b\x7d"
  | .objCons k v rest =>
    (jsonStringifyCore (.objCons k v rest)).map (fun t => "\x7b" ++ t ++ "\x7d")
  | .arrNil => some "[]"
  | .arrCons v rest =>
    (jsonStringifyCore (.arrCons v rest)).map (fun t => "[" ++ t ++ "]")
  | v => jsonStringifyCore v

/-- Skip JSON whitespace. -/
def skipWs : List Char → List Char
  | c :: cs => if c = ' ' ∨ c = '\n' ∨ c = '\t' ∨ c = '\r' then skipWs cs else c :: cs
  | [] => []

/-- Parse the remainder of a JSON string literal (the opening quote
already consumed), returning the unescaped content and the input after
the closing quote. -/
def parseStrAux : List Char → Option (List Char × List Char)
  | [] => none
  | '"' :: cs => some ([], cs)
  | '\\' :: c :: cs =>
    (parseStrAux cs).map (fun p =>
      ((if c = 'n' then '\n' else if c = 't' then '\t' else if c = 'r' then '\r' else c)
        :: p.1, p.2))
  | c :: cs => (parseStrAux cs).map (fun p => (c :: p.1, p.2))

/-- Parse a run of decimal digits onto an accumulator. -/
def parseNatAux : Nat → List Char → Nat × List Char
  | acc, c :: cs =>
    if c.isDigit then parseNatAux (acc * 10 + (c.toNat - 48)) cs else (acc, c :: cs)
  | acc, [] => (acc, [])

/-- The natural number denoted by a list of decimal digit characters. -/
def digitsToNat (cs : List Char) : Nat :=
  cs.foldl (fun acc c => acc * 10 + (c.toNat - 48)) 0

/-- Whether a string is a canonical array-index key in the JavaScript
sense: a decimal numeral without leading zeros whose value is below
2^32 - 1.  Object enumeration (`Object.values`) lists such keys first,
in ascending numeric order, before all other string keys. -/
def isArrayIndexKey (q : String) : Bool :=
  match q.data with
  | [] => false
  | ['0'] => true
  | '0' :: _ => false
  | cs => cs.all (fun c => c.isDigit) && decide (digitsToNat cs < 4294967295)

/-- Stable insertion of an element into a list sorted by `leb`. -/
def insertSorted {α : Type} (leb : α → α → Bool) (e : α) : List α → List α
  | [] => [e]
  | f :: rest => if leb e f then e :: f :: rest else f :: insertSorted leb e rest

/-- Stable insertion sort by `leb`. -/
def sortBy {α : Type} (leb : α → α → Bool) : List α → List α
  | [] => []
  | e :: rest => insertSorted leb e (sortBy leb rest)

/-- What the JSON parser is currently parsing: a value, the fields of
an object (after the opening brace, at least one field), or the items
of an array (after the opening bracket, at least one item). -/
inductive PMode where
  | val
  | fields
  | items

/-- Recursive-descent JSON parser, one structural recursion on a fuel
bound: in fields mode it returns the object cons chain, in items mode
the array cons chain. -/
def parseF : Nat → PMode → List Char → Except String (JSVal × List Char)
  | 0, _, _ => .error "JSON nesting too deep"
  | Nat.succ fuel, .val, input =>
    match skipWs input with
    | [] => .error "Unexpected end of JSON input"
    | '"' :: cs =>
      match parseStrAux cs with
      | some (content, rest) => .ok (.str (String.mk content), rest)
      | none => .error "Unterminated string in JSON"
    | '\x7b' :: cs =>
      match skipWs cs with
      | '\x7d' :: rest => .ok (.objNil, rest)
      | cs2 => parseF fuel .fields cs2
    | '[' :: cs =>
      match skipWs cs with
      | ']' :: rest => .ok (.arrNil, rest)
      | cs2 => parseF fuel .items cs2
    | 't' :: 'r' :: 'u' :: 'e' :: cs => .ok (.bool true, cs)
    | 'f' :: 'a' :: 'l' :: 's' :: 'e' :: cs => .ok (.bool false, cs)
    | 'n' :: 'u' :: 'l' :: 'l' :: cs => .ok (.null, cs)
    | '-' :: c :: cs =>
      if c.isDigit then
        let p := parseNatAux (c.toNat - 48) cs
        .ok (.int (-(p.1 : Int)), p.2)
      else .error "Unexpected token in JSON"
    | c :: cs =>
      if c.isDigit then
        let p := parseNatAux (c.toNat - 48) cs
        .ok (.int (p.1 : Int), p.2)
      else .error "Unexpected token in JSON"
  | Nat.succ fuel, .fields, input =>
    match skipWs input with
    | '"' :: cs =>
      match parseStrAux cs with
      | none => .error "Unterminated string in JSON"
      | some (key, r1) =>
        match skipWs r1 with
        | ':' :: r2 =>
          match parseF fuel .val r2 with
          | .error e => .error e
          | .ok (v, r3) =>
            match skipWs r3 with
            | ',' :: r4 =>
              match parseF fuel .fields r4 with
              | .ok (fs, r5) => .ok (.objCons (String.mk key) v fs, r5)
              | .error e => .error e
            | '\x7d' :: r4 => .ok (.objCons (String.mk key) v .objNil, r4)
            | _ => .error "Expected comma or closing brace in JSON object"
        | _ => .error "Expected colon in JSON object"
    | _ => .error "Expected string key in JSON object"
  | Nat.succ fuel, .items, input =>
    match parseF fuel .val input with
    | .error e => .error e
    | .ok (v, r1) =>
      match skipWs r1 with
      | ',' :: r2 =>
        match parseF fuel .items r2 with
        | .ok (vs, r3) => .ok (.arrCons v vs, r3)
        | .error e => .error e
      | ']' :: r2 => .ok (.arrCons v .arrNil, r2)
      | _ => .error "Expected comma or closing bracket in JSON array"

/-- `JSON.parse` on a whole string. -/
def jsonParse (s : String) : Except String JSVal :=
  match parseF (s.length + 1) .val s.data with
  | .ok (v, rest) =>
    if (skipWs rest).isEmpty then .ok v
    else .error "Unexpected non-whitespace character after JSON"
  | .error e => .error e

/-- Bytes of a string (Node `Buffer.from(s)`); buffer contents are
modelled by the character list of the decoded text, so encode/decode
round-trips exactly as Node's UTF-8 round trip does. -/
def bytesOfString (s : String) : List Char := s.data

/-- String decoded from buffer bytes (Node `buffer.toString()`). -/
def stringOfBytes (b : List Char) : String := String.mk b

/-- Coercion of an array entry to a byte, as `Buffer.from(array)`
does: JavaScript ToNumber, then taken modulo 256 — integers wrap,
booleans coerce to 1 and 0, null to 0, a string of decimal digits to
its value, and any non-numeric entry (ToNumber gives NaN) to 0.
Fractional or signed numeric strings are not modelled. -/
def byteOfVal : JSVal → Char
  | .int n => Char.ofNat (n % 256).toNat
  | .bool true => Char.ofNat 1
  | .bool false => Char.ofNat 0
  | .str s =>
    if !s.data.isEmpty && s.data.all (fun c => c.isDigit) then
      Char.ofNat (digitsToNat s.data % 256)
    else Char.ofNat 0
  | _ => Char.ofNat 0

/-- Collect the values of an array cons chain. -/
def arrVals : JSVal → List JSVal
  | .arrCons v rest => v :: arrVals rest
  | _ => []

/-- `Buffer.isBuffer(content) ? content : Buffer.from(content)`:
a buffer passes through, a string is encoded, an array is coerced
byte-wise, and any other value makes `Buffer.from` throw a TypeError. -/
def bufferFrom : JSVal → Except String (List Char)
  | .buf b => .ok b
  | .str s => .ok (bytesOfString s)
  | .arrNil => .ok []
  | .arrCons v rest => .ok ((arrVals (.arrCons v rest)).map byteOfVal)
  | _ => .error "TypeError: argument must be a string, Buffer, or Array-like Object"

/-- One subscription record, as pushed by `subscribe`:
subject pattern, optional queue group, unique id, delivery counter,
and the expectation/timeout bookkeeping written by `timeout`.
Subscription ids are modelled as naturals drawn from a fresh counter
(the source draws uuid.v4() values, unique with certainty here).
`timeoutRef` holds the handle of the scheduled timeout, mirroring the
`sub.timeout` field (null/undefined becomes `none`). -/
structure Sub where
  subject : String
  queue : Option String
  sid : Nat
  received : Nat
  expected : Option Nat
  timeoutRef : Option Nat
deriving Repr, DecidableEq

/-- A task sitting in the Node event queue: the deferred `connect`
emission (setTimeout 10ms), the deferred `disconnect` emission
(process.nextTick, due immediately), or a scheduled `timeout` callback
with its handle, the subscription id its closure captured, and its due
time. -/
inductive Timer where
  | emitConnect (due : Nat)
  | emitDisconnect (due : Nat)
  | fire (handle : Nat) (sid : Nat) (due : Nat)
deriving Repr, DecidableEq

/-- An observable callback invocation: a subscription handler being
called with (decoded payload, replyTo, subject) — identified by the
registry index of the subscription — a timeout callback being called
with the subscription id (tagged with the firing timer's handle, which
identifies the scheduled closure), or an emitted connect/disconnect
event. -/
inductive Ev where
  | delivered (idx : Nat) (payload : JSVal) (replyTo : Option String) (subject : String)
  | timedOut (timer : Nat) (sid : Nat)
  | connectEvent
  | disconnectEvent
deriving Repr, DecidableEq

/-- The whole mutable state of a MockNatsClient instance plus the
event loop it schedules into: the subscription registry `subs`, the
`connected` flag, the construction-time configuration, fresh-id
counters, the pending task queue and a virtual clock. -/
structure State where
  subs : List Sub
  connected : Bool
  useJson : Bool
  preserveBuffers : Bool
  nextSid : Nat
  nextTimer : Nat
  tasks : List Timer
  clock : Nat
deriving Repr

/-- Constructor options: `json` and `preserveBuffers`, both default false. -/
structure Opts where
  json : Bool := false
  preserveBuffers : Bool := false

/-- The constructor: empty registry, configuration from options.
The source never initializes `connected` (it is `undefined`, i.e.
falsy, until `connect` runs); the model reads that as `false`. -/
def init (o : Opts) : State :=
  { subs := [], connected := false, useJson := o.json,
    preserveBuffers := o.preserveBuffers, nextSid := 0, nextTimer := 0,
    tasks := [], clock := 0 }

/-- `connect(opts)`: sets `connected` to true synchronously and
schedules emission of the "connect" event 10ms later. -/
def connect (s : State) : State :=
  { s with connected := true, tasks := s.tasks ++ [.emitConnect (s.clock + 10)] }

/-- `close()`: synchronously empties the registry and resets
`connected`, then schedules the "disconnect" emission on the next tick
(due immediately). -/
def close (s : State) : State :=
  { s with subs := [], connected := false,
           tasks := s.tasks ++ [.emitDisconnect s.clock] }

/-- `subscribe(subject, opts, cb)` after argument shifting: push a
fresh record with `received = 0` and return the new sid. -/
def subscribe (s : State) (subject : String) (queue : Option String) : Nat × State :=
  (s.nextSid,
   { s with nextSid := s.nextSid + 1,
            subs := s.subs ++ [{ subject := subject, queue := queue, sid := s.nextSid,
                                 received := 0, expected := none, timeoutRef := none }] })

/-- Remove the first subscription carrying the given sid (the source's
find-then-splice); no-op when absent. -/
def removeFirstSid : List Sub → Nat → List Sub
  | [], _ => []
  | sb :: rest, sid => if sb.sid = sid then rest else sb :: removeFirstSid rest sid

/-- `unsubscribe(sid)`. -/
def unsubscribe (s : State) (sid : Nat) : State :=
  { s with subs := removeFirstSid s.subs sid }

/-- The first subscription carrying the given sid
(`_findSubscribeBySid`). -/
def findSid : List Sub → Nat → Option Sub
  | [], _ => none
  | sb :: rest, sid => if sb.sid = sid then some sb else findSid rest sid

/-- Update the first subscription carrying the given sid in place. -/
def updateFirstSid : List Sub → Nat → (Sub → Sub) → List Sub
  | [], _, _ => []
  | sb :: rest, sid, f =>
    if sb.sid = sid then f sb :: rest else sb :: updateFirstSid rest sid f

/-- `timeout(sid, timeout, expected, cb)`: if the sid is found, record
`expected` on the subscription, schedule the callback after the given
duration and store the timer handle on the subscription; silently do
nothing otherwise. -/
def timeoutOp (s : State) (sid : Nat) (dur : Nat) (expected : Nat) : State :=
  if s.subs.any (fun sb => sb.sid == sid) then
    { s with
      subs := updateFirstSid s.subs sid
        (fun sb => { sb with expected := some expected, timeoutRef := some s.nextTimer }),
      tasks := s.tasks ++ [.fire s.nextTimer sid (s.clock + dur)],
      nextTimer := s.nextTimer + 1 }
  else s

/-- The key under which `_findSubscribesBySubject` files a matching
subscription: `sub.queue || uuid.v4()`.  A non-empty queue group files
under the group name; an absent or empty (falsy) group files under a
fresh uuid, modelled as the subscription's own registry index, which is
unique and can never collide with a group name. -/
def qkey (p : Nat × Sub) : String ⊕ Nat :=
  match p.2.queue with
  | some q => if q = "" then Sum.inr p.1 else Sum.inl q
  | none => Sum.inr p.1

/-- JavaScript object assignment `m[k] = v`, tracked in key-creation
order: an existing key keeps its slot and gets the new value, a new
key is appended.  The enumeration order `Object.values` actually uses
(array-index-like keys hoisted in ascending numeric order) is applied
afterwards by `objectValuesOrder`. -/
def insertLWW (m : List ((String ⊕ Nat) × Nat)) (k : String ⊕ Nat) (v : Nat) :
    List ((String ⊕ Nat) × Nat) :=
  if m.any (fun e => decide (e.1 = k)) then
    m.map (fun e => if e.1 = k then (k, v) else e)
  else m ++ [(k, v)]

/-- The `onePerQueue`-building loop from an arbitrary starting object
(generalization used to reason about the fold). -/
def opqAux (m : List ((String ⊕ Nat) × Nat)) (ps : List (Nat × Sub)) :
    List ((String ⊕ Nat) × Nat) :=
  ps.foldl (fun m p => insertLWW m (qkey p) p.1) m

/-- The `onePerQueue` object built by `_findSubscribesBySubject`,
holding registry indices of the matching subscriptions. -/
def onePerQueue (ps : List (Nat × Sub)) : List ((String ⊕ Nat) × Nat) :=
  opqAux [] ps

/-- The matching subscriptions, paired with their registry indices
(`this.subs.filter(sub => utils.matchSubject(subject, sub.subject))`). -/
def matchingSubs (subs : List Sub) (subject : String) : List (Nat × Sub) :=
  subs.enum.filter (fun p => matchSubject subject p.2.subject)

/-- Whether an entry of the onePerQueue object sits under an
array-index-like key.  Only a queue-group name can: the fresh uuid keys
of ungrouped subscriptions are v4 uuid strings, never numerals. -/
def isArrayIndexEntry (e : (String ⊕ Nat) × Nat) : Bool :=
  match e.1 with
  | Sum.inl q => isArrayIndexKey q
  | Sum.inr _ => false

/-- The numeric value of an entry's key (only used on array-index
entries). -/
def keyNumOf (e : (String ⊕ Nat) × Nat) : Nat :=
  match e.1 with
  | Sum.inl q => digitsToNat q.data
  | Sum.inr _ => 0

/-- The property enumeration order of a JavaScript object, as
`Object.values` uses it: all array-index-like keys first, in ascending
numeric order, then the remaining keys in insertion order. -/
def objectValuesOrder (m : List ((String ⊕ Nat) × Nat)) :
    List ((String ⊕ Nat) × Nat) :=
  sortBy (fun a b => decide (keyNumOf a ≤ keyNumOf b)) (m.filter isArrayIndexEntry)
    ++ m.filter (fun e => !(isArrayIndexEntry e))

/-- `_findSubscribesBySubject`, as registry indices:
`Object.values(onePerQueue)` of the matching subscriptions, in object
property enumeration order. -/
def selectIdx (subs : List Sub) (subject : String) : List Nat :=
  (objectValuesOrder (onePerQueue (matchingSubs subs subject))).map Prod.snd

/-- The per-subscription delivery bookkeeping of `publish`:
`sub.received++`, then, when a pending timeout exists and the new count
has reached `expected`, it is cancelled and cleared.  Returns the
updated record and the cancelled handle, if any. -/
def bumpSub (sb : Sub) : Sub × Option Nat :=
  let rec1 := sb.received + 1
  let hit : Bool := sb.timeoutRef.isSome &&
    (match sb.expected with
     | some e => decide (e ≤ rec1)
     | none => false)
  if hit then ({ sb with received := rec1, timeoutRef := none }, sb.timeoutRef)
  else ({ sb with received := rec1 }, none)

/-- The handle of a scheduled timeout task, if it is one. -/
def timerHandle : Timer → Option Nat
  | .fire h _ _ => some h
  | _ => none

/-- The state change one delivery makes: the subscription at index `i`
is replaced by its bumped record and, when the bump cancelled a
timeout, the cancelled handle's task leaves the event queue
(`clearTimeout`). -/
def bumpState (st : State) (i : Nat) (sb : Sub) : State :=
  { st with
    subs := st.subs.set i (bumpSub sb).1,
    tasks :=
      match (bumpSub sb).2 with
      | some h => st.tasks.filter (fun t => !(decide (timerHandle t = some h)))
      | none => st.tasks }

/-- One iteration of the `subs.forEach` delivery loop of `publish`:
the guard `if (sub)` skips a missing record; otherwise bump the
subscription, cancel its met timeout, and invoke the handler with
(decoded payload, replyTo, subject). -/
def deliverStep (delivery : JSVal) (replyTo : Option String) (subject : String)
    (acc : State × List Ev) (i : Nat) : State × List Ev :=
  match acc.1.subs[i]? with
  | none => acc
  | some sb =>
    (bumpState acc.1 i sb, acc.2 ++ [Ev.delivered i delivery replyTo subject])

/-- The `subs.forEach` delivery loop of `publish`, over the selected
registry indices in selection order. -/
def deliver (s : State) (sel : List Nat) (delivery : JSVal)
    (replyTo : Option String) (subject : String) : State × List Ev :=
  sel.foldl (deliverStep delivery replyTo subject) (s, [])

/-- The encode step of `publish`: in JSON mode the stringified message
(JavaScript `undefined` when not serializable), the raw message
otherwise. -/
def encodeContent (useJson : Bool) (message : JSVal) : JSVal :=
  if useJson then
    match jsonStringify message with
    | some str => .str str
    | none => .undef
  else message

/-- The decode step of `publish`: JSON parse in JSON mode, the decoded
text by default, the raw buffer when buffers are preserved. -/
def decodeDelivery (useJson preserveBuffers : Bool) (payload : List Char) :
    Except String JSVal :=
  if useJson then jsonParse (stringOfBytes payload)
  else if !preserveBuffers then .ok (.str (stringOfBytes payload))
  else .ok (.buf payload)

/-- `publish(subject, message, replyTo)`: encode the message (JSON
stringify when configured, coerce to a buffer), decode it for delivery
(JSON parse / string / raw buffer), select subscriptions and run the
delivery loop.  A thrown JavaScript error becomes `Except.error` and
occurs before any selection or mutation. -/
def publish (s : State) (subject : String) (message : JSVal)
    (replyTo : Option String) : Except String (State × List Ev) :=
  match bufferFrom (encodeContent s.useJson message) with
  | .error e => .error e
  | .ok payload =>
    match decodeDelivery s.useJson s.preserveBuffers payload with
    | .error e => .error e
    | .ok delivery =>
      .ok (deliver s (selectIdx s.subs subject) delivery replyTo subject)

/-- The state after `publish`; a throw happens before any mutation, so
an erroring publish leaves the state as it was. -/
def pubState (s : State) (subject : String) (message : JSVal)
    (replyTo : Option String) : State :=
  match publish s subject message replyTo with
  | .ok p => p.1
  | .error _ => s

/-- The handler invocations performed by `publish` (none on a throw). -/
def pubEvents (s : State) (subject : String) (message : JSVal)
    (replyTo : Option String) : List Ev :=
  match publish s subject message replyTo with
  | .ok p => p.2
  | .error _ => []

/-- `requestOne(subject, message, options, callback)`: draw a fresh
correlation id and publish with it as replyTo.  When `message` is a
function the source executes `message = EMPTY` — but no identifier
`EMPTY` exists anywhere in the module, and the subsequent
`opt_options = null` assigns an undeclared variable inside strict-mode
class code — so that branch throws a ReferenceError before publishing.
When `options` is a function it is reassigned into `callback`, which
the method never uses. -/
def requestOne (s : State) (subject : String) (message : JSVal)
    (options : JSVal) : Except String (Nat × State × List Ev) :=
  let sid := s.nextSid
  let s0 := { s with nextSid := sid + 1 }
  match message with
  | .func => .error "ReferenceError: EMPTY is not defined"
  | _ =>
    match publish s0 subject message (some (toString sid)) with
    | .error e => .error e
    | .ok p => .ok (sid, p.1, p.2)

/-- Due check for a scheduled task. -/
def timerDue (now : Nat) : Timer → Bool
  | .emitConnect d => decide (d ≤ now)
  | .emitDisconnect d => decide (d ≤ now)
  | .fire _ _ d => decide (d ≤ now)

/-- The callback a firing task runs. -/
def timerEvent : Timer → Ev
  | .emitConnect _ => .connectEvent
  | .emitDisconnect _ => .disconnectEvent
  | .fire h sid _ => .timedOut h sid

/-- The due time of a scheduled task. -/
def dueTime : Timer → Nat
  | .emitConnect d => d
  | .emitDisconnect d => d
  | .fire _ _ d => d

/-- Whether a task sits in the nextTick queue (only the deferred
disconnect emission does); Node drains that queue before timers. -/
def isNextTick : Timer → Bool
  | .emitDisconnect _ => true
  | _ => false

/-- Let `t` units of virtual time pass: every scheduled task that has
come due fires and leaves the queue.  As in Node, the nextTick queue
drains first (in registration order), then the timer callbacks run in
ascending due-time order, registration order breaking ties.  A fired
timeout does not clear the stale `timeoutRef` on its subscription,
exactly as in Node. -/
def elapse (s : State) (t : Nat) : State × List Ev :=
  let now := s.clock + t
  let due := s.tasks.filter (timerDue now)
  ({ s with clock := now, tasks := s.tasks.filter (fun tk => !(timerDue now tk)) },
   (due.filter isNextTick).map timerEvent
     ++ (sortBy (fun a b => decide (dueTime a ≤ dueTime b))
          (due.filter (fun tk => !(isNextTick tk)))).map timerEvent)

/-- A test-script step against the client. -/
inductive Op where
  | doConnect
  | doClose
  | doSubscribe (subject : String) (queue : Option String)
  | doUnsubscribe (sid : Nat)
  | doTimeout (sid : Nat) (dur : Nat) (expected : Nat)
  | doPublish (subject : String) (message : JSVal) (replyTo : Option String)
  | doElapse (t : Nat)

/-- One script step; the observable callback invocations it causes. -/
def runOp (s : State) : Op → Except String (State × List Ev)
  | .doConnect => .ok (connect s, [])
  | .doClose => .ok (close s, [])
  | .doSubscribe subject queue => .ok ((subscribe s subject queue).2, [])
  | .doUnsubscribe sid => .ok (unsubscribe s sid, [])
  | .doTimeout sid dur expected => .ok (timeoutOp s sid dur expected, [])
  | .doPublish subject message replyTo => publish s subject message replyTo
  | .doElapse t => .ok (elapse s t)

/-- Run a script; a thrown error aborts it, as it would a test body. -/
def run (s : State) : List Op → Except String (State × List Ev)
  | [] => .ok (s, [])
  | op :: ops =>
    match runOp s op with
    | .error e => .error e
    | .ok p =>
      match run p.1 ops with
      | .error e => .error e
      | .ok q => .ok (q.1, p.2 ++ q.2)

/-- All callback invocations of a script (none past a throw). -/
def runEvents (s : State) (ops : List Op) : List Ev :=
  match run s ops with
  | .ok p => p.2
  | .error _ => []

/-- The registry indices of the handler invocations in an event list,
in invocation order. -/
def deliveredIdxs (evs : List Ev) : List Nat :=
  evs.filterMap (fun e =>
    match e with
    | .delivered i _ _ _ => some i
    | _ => none)

/-- Whether an event is a timeout callback invocation. -/
def isTimedOut : Ev → Bool
  | .timedOut _ _ => true
  | _ => false

/-- The queue group of the subscription at a registry index. -/
def queueAt (subs : List Sub) (i : Nat) : Option String :=
  (subs[i]?).bind (fun sb => sb.queue)

/-- The same client state with the `connected` flag overwritten. -/
def setConn (s : State) (b : Bool) : State := { s with connected := b }

/-- Fixture: a subscription on subject "s" in queue group "q" (sid 0). -/
def subQ1 : Sub :=
  { subject := "s", queue := some "q", sid := 0, received := 0,
    expected := none, timeoutRef := none }

/-- Fixture: an ungrouped subscription on subject "s" (sid 1). -/
def subU : Sub :=
  { subject := "s", queue := none, sid := 1, received := 0,
    expected := none, timeoutRef := none }

/-- Fixture: a second subscription on "s" in queue group "q" (sid 2). -/
def subQ2 : Sub :=
  { subject := "s", queue := some "q", sid := 2, received := 0,
    expected := none, timeoutRef := none }

/-- Fixture: a registry interleaving the queue group "q" around an
ungrouped subscription — grouped (sid 0), ungrouped (sid 1),
grouped (sid 2). -/
def cSubs : List Sub := [subQ1, subU, subQ2]

/-- Fixture: a default-configuration client holding `cSubs`. -/
def cState : State :=
  { subs := cSubs, connected := false, useJson := false,
    preserveBuffers := false, nextSid := 3, nextTimer := 0,
    tasks := [], clock := 0 }

/-- Fixture: an ungrouped subscription on subject "t" (sid 0). -/
def subT : Sub :=
  { subject := "t", queue := none, sid := 0, received := 0,
    expected := none, timeoutRef := none }

/-- Fixture: a default-configuration client holding only `subT`. -/
def tState : State :=
  { subs := [subT], connected := false, useJson := false,
    preserveBuffers := false, nextSid := 1, nextTimer := 0,
    tasks := [], clock := 0 }

/-! ### The subject matcher agrees with the declarative rules -/

theorem matchSpec_nil_left {ss : List String} : MatchSpec ss [] ↔ ss = [] := by
  constructor
  · rintro (h | ⟨qs, us, ts, hps, hss, hts, hf⟩)
    · cases h; rfl
    · exact absurd hps.symm (by simp)
  · rintro rfl
    exact Or.inl List.Forall₂.nil

theorem matchSpec_gt {ss : List String} : MatchSpec ss [">"] ↔ ss ≠ [] := by
  constructor
  · rintro (h | ⟨qs, us, ts, hps, hss, hts, hf⟩)
    · cases h with
      | cons h1 h2 => simp
    · subst hss
      intro hcontra
      rcases List.append_eq_nil.mp hcontra with ⟨-, h2⟩
      exact hts h2
  · intro h
    cases ss with
    | nil => exact absurd rfl h
    | cons s ss' =>
      exact Or.inr ⟨[], [], s :: ss', rfl, rfl, by simp, List.Forall₂.nil⟩

theorem matchSpec_cons {p s : String} {ps ss : List String}
    (h : ¬(p = ">" ∧ ps = [])) :
    MatchSpec (s :: ss) (p :: ps) ↔ LitOrStar p s ∧ MatchSpec ss ps := by
  constructor
  · rintro (hf | ⟨qs, us, ts, hps, hss, hts, hf⟩)
    · cases hf with
      | cons h1 h2 => exact ⟨h1, Or.inl h2⟩
    · cases qs with
      | nil =>
        simp only [List.nil_append] at hps
        exact absurd ⟨(List.cons.injEq .. ▸ hps).1, (List.cons.injEq .. ▸ hps).2⟩ h
      | cons q qs' =>
        simp only [List.cons_append, List.cons.injEq] at hps
        obtain ⟨rfl, hps'⟩ := hps
        cases hf with
        | cons h1 h2 =>
          rename_i u us'
          simp only [List.cons_append, List.cons.injEq] at hss
          obtain ⟨rfl, hss'⟩ := hss
          exact ⟨h1, Or.inr ⟨qs', us', ts, hps', hss', hts, h2⟩⟩
  · rintro ⟨h1, hf | ⟨qs, us, ts, hps, hss, hts, hf⟩⟩
    · exact Or.inl (List.Forall₂.cons h1 hf)
    · exact Or.inr ⟨p :: qs, s :: us, ts, by simp [hps], by simp [hss], hts,
        List.Forall₂.cons h1 hf⟩

theorem matchSpec_nil_cons {p : String} {ps : List String}
    (h : ¬(p = ">" ∧ ps = [])) : ¬ MatchSpec [] (p :: ps) := by
  rintro (hf | ⟨qs, us, ts, hps, hss, hts, hf⟩)
  · cases hf
  · rcases List.append_eq_nil.mp hss.symm with ⟨-, h2⟩
    exact hts h2

theorem segsMatch_iff : ∀ (ps ss : List String),
    segsMatch ss ps = true ↔ MatchSpec ss ps := by
  intro ps
  induction ps with
  | nil =>
    intro ss
    cases ss with
    | nil => simp [segsMatch, matchSpec_nil_left]
    | cons s ss' => simp [segsMatch, matchSpec_nil_left]
  | cons p ps ih =>
    intro ss
    by_cases hgt : p = ">" ∧ ps = []
    · obtain ⟨rfl, rfl⟩ := hgt
      cases ss with
      | nil => simp [segsMatch, matchSpec_gt]
      | cons s ss' => simp [segsMatch, matchSpec_gt]
    · have hcond : (p == ">" && ps.isEmpty) = false := by
        rcases not_and_or.mp hgt with h | h
        · simp [beq_eq_false_iff_ne, h]
        · cases ps with
          | nil => exact absurd rfl h
          | cons a l => simp
      cases ss with
      | nil =>
        simp only [segsMatch]
        exact iff_of_false (by simp) (matchSpec_nil_cons hgt)
      | cons s ss' =>
        rw [matchSpec_cons hgt]
        simp [segsMatch, hcond, ih ss', LitOrStar]

/-! ### Queue-group reduction: properties of the onePerQueue object -/

theorem qkey_inr {p : Nat × Sub} {j : Nat} (h : qkey p = Sum.inr j) : j = p.1 := by
  unfold qkey at h
  split at h
  · split at h
    · exact (Sum.inr.inj h).symm
    · exact absurd h (by simp)
  · exact (Sum.inr.inj h).symm

theorem qkey_eq_inr_of_falsy {p : Nat × Sub}
    (h : p.2.queue = none ∨ p.2.queue = some "") : qkey p = Sum.inr p.1 := by
  unfold qkey
  rcases h with h | h <;> rw [h] <;> simp

theorem qkey_eq_inl_iff {p : Nat × Sub} {g : String} (hg : g ≠ "") :
    qkey p = Sum.inl g ↔ p.2.queue = some g := by
  unfold qkey
  cases hq : p.2.queue with
  | none => simp
  | some q =>
    by_cases hqe : q = ""
    · subst hqe
      simp [Ne.symm hg]
    · simp [hqe]

theorem insertLWW_keys_of_mem {m : List ((String ⊕ Nat) × Nat)} {k : String ⊕ Nat}
    (v : Nat) (h : k ∈ m.map Prod.fst) :
    (insertLWW m k v).map Prod.fst = m.map Prod.fst := by
  rcases List.mem_map.mp h with ⟨e, he, hek⟩
  have hany : m.any (fun e => decide (e.1 = k)) = true :=
    List.any_eq_true.mpr ⟨e, he, decide_eq_true hek⟩
  unfold insertLWW
  rw [if_pos hany, List.map_map]
  apply List.map_congr_left
  intro e' _
  show (if e'.1 = k then ((k, v) : (String ⊕ Nat) × Nat) else e').1 = e'.1
  rcases Classical.em (e'.1 = k) with hk2 | hk2
  · rw [if_pos hk2]
    exact hk2.symm
  · rw [if_neg hk2]

theorem insertLWW_keys_of_not_mem {m : List ((String ⊕ Nat) × Nat)} {k : String ⊕ Nat}
    (v : Nat) (h : k ∉ m.map Prod.fst) :
    (insertLWW m k v).map Prod.fst = m.map Prod.fst ++ [k] := by
  have hany : m.any (fun e => decide (e.1 = k)) = false := by
    rw [Bool.eq_false_iff]
    intro hc
    rcases List.any_eq_true.mp hc with ⟨e, he, hek⟩
    exact h (List.mem_map.mpr ⟨e, he, of_decide_eq_true hek⟩)
  unfold insertLWW
  rw [hany]
  rw [if_neg (by simp), List.map_append]
  rfl

theorem mem_insertLWW {m : List ((String ⊕ Nat) × Nat)} {k : String ⊕ Nat} {v : Nat}
    {e : (String ⊕ Nat) × Nat} (h : e ∈ insertLWW m k v) : e ∈ m ∨ e = (k, v) := by
  unfold insertLWW at h
  split at h
  · rcases List.mem_map.mp h with ⟨e', he', heq⟩
    rcases Classical.em (e'.1 = k) with hk | hk
    · rw [if_pos hk] at heq
      exact Or.inr heq.symm
    · rw [if_neg hk] at heq
      exact Or.inl (heq ▸ he')
  · rcases List.mem_append.mp h with h1 | h1
    · exact Or.inl h1
    · right
      simpa using h1

theorem insertLWW_self (m : List ((String ⊕ Nat) × Nat)) (k : String ⊕ Nat) (v : Nat) :
    (k, v) ∈ insertLWW m k v := by
  unfold insertLWW
  split
  · next hany =>
    rcases List.any_eq_true.mp hany with ⟨e, he, hek⟩
    refine List.mem_map.mpr ⟨e, he, ?_⟩
    rw [if_pos (of_decide_eq_true hek)]
  · exact List.mem_append.mpr (Or.inr (by simp))

theorem insertLWW_other {m : List ((String ⊕ Nat) × Nat)} {k : String ⊕ Nat} {v : Nat}
    {e : (String ⊕ Nat) × Nat} (he : e ∈ m) (hk : e.1 ≠ k) : e ∈ insertLWW m k v := by
  unfold insertLWW
  split
  · refine List.mem_map.mpr ⟨e, he, ?_⟩
    rw [if_neg hk]
  · exact List.mem_append.mpr (Or.inl he)

theorem mem_keys_insertLWW {m : List ((String ⊕ Nat) × Nat)} {k' k : String ⊕ Nat}
    {v : Nat} : k ∈ (insertLWW m k' v).map Prod.fst ↔ k ∈ m.map Prod.fst ∨ k = k' := by
  rcases Classical.em (k' ∈ m.map Prod.fst) with h | h
  · rw [insertLWW_keys_of_mem v h]
    constructor
    · exact Or.inl
    · rintro (h1 | rfl)
      · exact h1
      · exact h
  · rw [insertLWW_keys_of_not_mem v h]
    simp [List.mem_append]

theorem opqAux_nil (m : List ((String ⊕ Nat) × Nat)) : opqAux m [] = m := rfl

theorem opqAux_cons (m : List ((String ⊕ Nat) × Nat)) (p : Nat × Sub)
    (ps : List (Nat × Sub)) :
    opqAux m (p :: ps) = opqAux (insertLWW m (qkey p) p.1) ps := rfl

theorem mem_keys_opqAux {k : String ⊕ Nat} :
    ∀ {ps : List (Nat × Sub)} {m : List ((String ⊕ Nat) × Nat)},
      k ∈ (opqAux m ps).map Prod.fst ↔ k ∈ m.map Prod.fst ∨ ∃ p ∈ ps, qkey p = k := by
  intro ps
  induction ps with
  | nil => simp [opqAux_nil]
  | cons p ps ih =>
    intro m
    rw [opqAux_cons, ih, mem_keys_insertLWW]
    constructor
    · rintro ((h | rfl) | ⟨p', hp', rfl⟩)
      · exact Or.inl h
      · exact Or.inr ⟨p, List.mem_cons_self .., rfl⟩
      · exact Or.inr ⟨p', List.mem_cons_of_mem _ hp', rfl⟩
    · rintro (h | ⟨p', hp', rfl⟩)
      · exact Or.inl (Or.inl h)
      · rcases List.mem_cons.mp hp' with rfl | hp''
        · exact Or.inl (Or.inr rfl)
        · exact Or.inr ⟨p', hp'', rfl⟩

theorem nodup_keys_opqAux :
    ∀ {ps : List (Nat × Sub)} {m : List ((String ⊕ Nat) × Nat)},
      (m.map Prod.fst).Nodup → ((opqAux m ps).map Prod.fst).Nodup := by
  intro ps
  induction ps with
  | nil => exact fun h => h
  | cons p ps ih =>
    intro m hm
    rw [opqAux_cons]
    apply ih
    rcases Classical.em (qkey p ∈ m.map Prod.fst) with h | h
    · rw [insertLWW_keys_of_mem _ h]
      exact hm
    · rw [insertLWW_keys_of_not_mem _ h]
      simp [List.nodup_append, hm, h]

theorem mem_opqAux :
    ∀ {ps : List (Nat × Sub)} {m : List ((String ⊕ Nat) × Nat)}
      {e : (String ⊕ Nat) × Nat},
      e ∈ opqAux m ps → e ∈ m ∨ ∃ p ∈ ps, e = (qkey p, p.1) := by
  intro ps
  induction ps with
  | nil => exact fun h => Or.inl h
  | cons p ps ih =>
    intro m e he
    rw [opqAux_cons] at he
    rcases ih he with h1 | ⟨p', hp', rfl⟩
    · rcases mem_insertLWW h1 with h2 | rfl
      · exact Or.inl h2
      · exact Or.inr ⟨p, List.mem_cons_self .., rfl⟩
    · exact Or.inr ⟨p', List.mem_cons_of_mem _ hp', rfl⟩

theorem opqAux_persist :
    ∀ {ps : List (Nat × Sub)} {m : List ((String ⊕ Nat) × Nat)}
      {e : (String ⊕ Nat) × Nat},
      e ∈ m → (∀ p ∈ ps, qkey p ≠ e.1) → e ∈ opqAux m ps := by
  intro ps
  induction ps with
  | nil => exact fun h _ => h
  | cons p ps ih =>
    intro m e he hk
    rw [opqAux_cons]
    exact ih (insertLWW_other he fun hc => hk p (List.mem_cons_self ..) hc.symm)
      fun p' hp' => hk p' (List.mem_cons_of_mem _ hp')

theorem inr_mem_opqAux :
    ∀ {ps : List (Nat × Sub)} {m : List ((String ⊕ Nat) × Nat)} {p : Nat × Sub},
      (ps.map Prod.fst).Nodup → p ∈ ps → qkey p = Sum.inr p.1 →
      (Sum.inr p.1, p.1) ∈ opqAux m ps := by
  intro ps
  induction ps with
  | nil => intro m p _ h; cases h
  | cons q ps ih =>
    intro m p hnd hp hq
    rw [List.map_cons] at hnd
    rcases List.mem_cons.mp hp with rfl | hp'
    · rw [opqAux_cons]
      apply opqAux_persist (hq ▸ insertLWW_self m (qkey p) p.1)
      intro r hr hc
      have h1 : p.1 = r.1 := qkey_inr hc
      have h2 : p.1 ∉ ps.map Prod.fst := (List.nodup_cons.mp hnd).1
      exact h2 (h1 ▸ List.mem_map_of_mem Prod.fst hr)
    · exact ih (List.nodup_cons.mp hnd).2 hp' hq

theorem nodup_values_onePerQueue {ps : List (Nat × Sub)}
    (h : (ps.map Prod.fst).Nodup) : ((onePerQueue ps).map Prod.snd).Nodup := by
  have hkeys : ((onePerQueue ps).map Prod.fst).Nodup := nodup_keys_opqAux (by simp)
  have hmnodup : (onePerQueue ps).Nodup := hkeys.of_map
  rw [List.nodup_map_iff_inj_on hmnodup]
  intro e he e' he' hsnd
  rcases mem_opqAux he with h1 | ⟨p, hp, rfl⟩
  · cases h1
  rcases mem_opqAux he' with h1 | ⟨p', hp', rfl⟩
  · cases h1
  have : p = p' := List.inj_on_of_nodup_map h hp hp' hsnd
  rw [this]

theorem mem_matchingSubs {subs : List Sub} {subject : String} {p : Nat × Sub} :
    p ∈ matchingSubs subs subject ↔
      subs[p.1]? = some p.2 ∧ matchSubject subject p.2.subject = true := by
  unfold matchingSubs
  rw [List.mem_filter, List.mem_enum_iff_getElem?]

theorem fst_nodup_matchingSubs (subs : List Sub) (subject : String) :
    ((matchingSubs subs subject).map Prod.fst).Nodup :=
  List.Nodup.sublist ((List.filter_sublist _).map Prod.fst)
    (List.nodup_enum_map_fst subs)

theorem onePerQueue_eq (ps : List (Nat × Sub)) : onePerQueue ps = opqAux [] ps := rfl

theorem selectIdx_eq (subs : List Sub) (subject : String) :
    selectIdx subs subject =
      (objectValuesOrder (onePerQueue (matchingSubs subs subject))).map Prod.snd := rfl

theorem insertSorted_perm {α : Type} (leb : α → α → Bool) (e : α) :
    ∀ l : List α, (insertSorted leb e l).Perm (e :: l) := by
  intro l
  induction l with
  | nil => exact List.Perm.refl _
  | cons f rest ih =>
    unfold insertSorted
    split
    · exact List.Perm.refl _
    · exact ((ih.cons f).trans (List.Perm.swap e f rest)).symm.symm

theorem sortBy_perm {α : Type} (leb : α → α → Bool) :
    ∀ l : List α, (sortBy leb l).Perm l := by
  intro l
  induction l with
  | nil => exact List.Perm.refl _
  | cons e rest ih =>
    exact (insertSorted_perm leb e (sortBy leb rest)).trans (ih.cons e)

theorem objectValuesOrder_perm (m : List ((String ⊕ Nat) × Nat)) :
    (objectValuesOrder m).Perm m := by
  unfold objectValuesOrder
  exact ((sortBy_perm _ (m.filter isArrayIndexEntry)).append_right _).trans
    (List.filter_append_perm _ m)

theorem selectIdx_perm (subs : List Sub) (subject : String) :
    (selectIdx subs subject).Perm
      ((onePerQueue (matchingSubs subs subject)).map Prod.snd) :=
  (objectValuesOrder_perm (onePerQueue (matchingSubs subs subject))).map Prod.snd

theorem countP_eq_one_of_nodup {α : Type} [DecidableEq α] {l : List α} {a : α}
    (hn : l.Nodup) (ha : a ∈ l) : l.countP (fun x => decide (x = a)) = 1 := by
  induction l with
  | nil => cases ha
  | cons b l ih =>
    rw [List.countP_cons]
    rcases List.nodup_cons.mp hn with ⟨hb, hl⟩
    rcases List.mem_cons.mp ha with heq | ha'
    · subst heq
      rw [if_pos (by simp)]
      have h0 : l.countP (fun x => decide (x = a)) = 0 :=
        List.countP_eq_zero.mpr (fun c hc hdec => hb (of_decide_eq_true hdec ▸ hc))
      rw [h0]
    · have hba : b ≠ a := fun hc => hb (hc ▸ ha')
      rw [if_neg (by simpa using hba), ih hl ha']

/-- Every element of the selection is the index of a matching
subscription, whose queue key is the entry key. -/
theorem mem_selectIdx {subs : List Sub} {subject : String} {i : Nat}
    (hi : i ∈ selectIdx subs subject) :
    ∃ p ∈ matchingSubs subs subject, p.1 = i := by
  have hi' : i ∈ (onePerQueue (matchingSubs subs subject)).map Prod.snd :=
    (selectIdx_perm subs subject).mem_iff.mp hi
  rcases List.mem_map.mp hi' with ⟨e, he, rfl⟩
  rw [onePerQueue_eq] at he
  rcases mem_opqAux he with h | ⟨p, hp, rfl⟩
  · cases h
  · exact ⟨p, hp, rfl⟩

/-- A successful publish is exactly the delivery loop run on the
selection, for some decoded payload. -/
theorem publish_ok_shape {s : State} {subject : String} {message : JSVal}
    {replyTo : Option String} {p : State × List Ev}
    (h : publish s subject message replyTo = .ok p) :
    ∃ d, p = deliver s (selectIdx s.subs subject) d replyTo subject := by
  unfold publish at h
  repeat' split at h
  all_goals
    first
      | exact Except.noConfusion h
      | exact ⟨_, (Except.ok.inj h).symm⟩

/-! ### Claim theorems -/

/-- C1: for every publish, among the subscriptions whose pattern matches
the subject, the selected set contains exactly one subscription per
distinct non-empty queue-group value, every matching subscription whose
queue group is absent or empty, and nothing that does not match:
publishing to N subscriptions sharing one queue group delivers to
exactly one of them, and publishing to M ungrouped matching
subscriptions delivers to all M. -/
theorem C1_queue_group_selection (subs : List Sub) (subject : String) :
    (∀ g : String, g ≠ "" →
        (∃ p ∈ matchingSubs subs subject, p.2.queue = some g) →
        (selectIdx subs subject).countP
          (fun i => decide (queueAt subs i = some g)) = 1)
    ∧ (∀ p ∈ matchingSubs subs subject,
        p.2.queue = none ∨ p.2.queue = some "" → p.1 ∈ selectIdx subs subject)
    ∧ ∀ i ∈ selectIdx subs subject, ∃ p ∈ matchingSubs subs subject, p.1 = i := by
  refine ⟨?_, ?_, fun i hi => mem_selectIdx hi⟩
  · intro g hg ⟨p0, hp0, hq0⟩
    rw [List.Perm.countP_eq _ (selectIdx_perm subs subject), List.countP_map]
    have hstep1 :
        (onePerQueue (matchingSubs subs subject)).countP
          ((fun i => decide (queueAt subs i = some g)) ∘ Prod.snd) =
        (onePerQueue (matchingSubs subs subject)).countP
          (fun e => decide (e.1 = Sum.inl g)) := by
      apply List.countP_congr
      intro e he
      rw [onePerQueue_eq] at he
      rcases mem_opqAux he with h | ⟨p, hp, rfl⟩
      · cases h
      · have hget : subs[p.1]? = some p.2 := (mem_matchingSubs.mp hp).1
        have hqAt : queueAt subs p.1 = p.2.queue := by
          unfold queueAt
          rw [hget]
          rfl
        show decide (queueAt subs p.1 = some g) = true ↔
          decide (qkey p = Sum.inl g) = true
        rw [hqAt]
        constructor
        · intro h1
          exact decide_eq_true ((qkey_eq_inl_iff hg).mpr (of_decide_eq_true h1))
        · intro h1
          exact decide_eq_true ((qkey_eq_inl_iff hg).mp (of_decide_eq_true h1))
    rw [hstep1]
    have hstep2 :
        (onePerQueue (matchingSubs subs subject)).countP
          (fun e => decide (e.1 = Sum.inl g)) =
        ((onePerQueue (matchingSubs subs subject)).map Prod.fst).countP
          (fun k => decide (k = Sum.inl g)) := by
      rw [List.countP_map]
      rfl
    rw [hstep2]
    have hmem : Sum.inl g ∈ (onePerQueue (matchingSubs subs subject)).map Prod.fst := by
      rw [onePerQueue_eq]
      exact mem_keys_opqAux.mpr
        (Or.inr ⟨p0, hp0, (qkey_eq_inl_iff hg).mpr hq0⟩)
    have hnd : ((onePerQueue (matchingSubs subs subject)).map Prod.fst).Nodup := by
      rw [onePerQueue_eq]
      exact nodup_keys_opqAux (by simp)
    exact countP_eq_one_of_nodup hnd hmem
  · intro p hp hfalsy
    apply (selectIdx_perm subs subject).mem_iff.mpr
    rw [onePerQueue_eq]
    exact List.mem_map.mpr
      ⟨(Sum.inr p.1, p.1),
       inr_mem_opqAux (fst_nodup_matchingSubs subs subject) hp
         (qkey_eq_inr_of_falsy hfalsy), rfl⟩

/-- Witness for C1 on the concrete interleaved registry `cSubs`:
queue group "q" has two matching members and exactly one is selected;
the ungrouped subscription at index 1 is selected. -/
theorem C1_queue_group_selection_witness :
    (selectIdx cSubs "s").countP (fun i => decide (queueAt cSubs i = some "q")) = 1
    ∧ 1 ∈ selectIdx cSubs "s" :=
  ⟨(C1_queue_group_selection cSubs "s").1 "q" (by decide)
      ⟨(0, subQ1), by decide, by decide⟩,
   (C1_queue_group_selection cSubs "s").2.1 (1, subU) (by decide) (Or.inl rfl)⟩

/-- C2: the subject-matching predicate used by publish holds iff each
"*" pattern segment matches exactly one arbitrary subject segment, a
final ">" pattern segment matches one-or-more trailing subject
segments, all other segments match literally position-for-position,
and segment counts align exactly except for the trailing ">" case; in
particular the pattern a-dot-gt matches "a.b" and "a.b.c" but not "a", and "a.*.c"
matches "a.b.c" but not "a.b.d.c" or "a.c". -/
theorem C2_subject_matching :
    (∀ subject pattern : String,
        matchSubject subject pattern = true ↔
          MatchSpec (splitDot subject) (splitDot pattern))
    ∧ matchSubject "a.b" "a.>" = true
    ∧ matchSubject "a.b.c" "a.>" = true
    ∧ matchSubject "a" "a.>" = false
    ∧ matchSubject "a.b.c" "a.*.c" = true
    ∧ matchSubject "a.b.d.c" "a.*.c" = false
    ∧ matchSubject "a.c" "a.*.c" = false :=
  ⟨fun subject pattern => segsMatch_iff (splitDot pattern) (splitDot subject),
   by decide, by decide, by decide, by decide, by decide, by decide⟩

/-- C5 (code bug): `requestOne` is claimed to treat a function `message`
as the callback, defaulting the message to an empty payload; instead the
source assigns the undefined identifier EMPTY (and the undeclared
strict-mode variable opt_options), so the call throws a ReferenceError
and neither publishes nor returns an id.  The non-function path does
generate a fresh correlation id, publish with it as replyTo, and return
it. -/
theorem C5_requestOne_empty_bug :
    requestOne (init {}) "foo" JSVal.func JSVal.null =
      .error "ReferenceError: EMPTY is not defined"
    ∧ requestOne (init {}) "foo" (JSVal.str "m") JSVal.null =
        .ok (0, { init {} with nextSid := 1 }, []) := by
  constructor
  · rfl
  · rfl

/-- C6 counterexample: the claim says the connected flag is not yet
observably true immediately after `connect` returns; in the source
`connect` sets `this.connected = true` synchronously, so the flag reads
true before any scheduling tick. -/
theorem C6_connect_flag_counterexample :
    (connect (init {})).connected = true := rfl

/-- C6 (amended): `connect` sets the connected flag synchronously —
immediately after it returns the flag reads true — while only the
"connect" event is asynchronous: it is scheduled 10ms ahead, nothing is
emitted synchronously, and the event fires once 10ms elapse.  The flag
is initialized falsy at construction. -/
theorem C6_connect_flag_sync (s : State) :
    (connect s).connected = true
    ∧ (connect s).clock = s.clock
    ∧ (connect s).tasks = s.tasks ++ [Timer.emitConnect (s.clock + 10)]
    ∧ (init {}).connected = false
    ∧ (elapse (connect (init {})) 10).2 = [Ev.connectEvent] :=
  ⟨rfl, rfl, rfl, rfl, rfl⟩

/-- C7: `close()` synchronously clears the registry and resets the
connected flag; a publish performed right after close matches no
subscription, invokes no handler, and leaves the registry empty, and
the connected flag reads false. -/
theorem C7_close_clears (s : State) (subject : String) (message : JSVal)
    (replyTo : Option String) :
    (close s).subs = []
    ∧ (close s).connected = false
    ∧ pubEvents (close s) subject message replyTo = []
    ∧ (pubState (close s) subject message replyTo).subs = [] := by
  refine ⟨rfl, rfl, ?_, ?_⟩
  · unfold pubEvents
    cases hp : publish (close s) subject message replyTo with
    | error e => rfl
    | ok p =>
      rcases publish_ok_shape hp with ⟨d, rfl⟩
      rfl
  · unfold pubState
    cases hp : publish (close s) subject message replyTo with
    | error e => rfl
    | ok p =>
      rcases publish_ok_shape hp with ⟨d, rfl⟩
      rfl

/-- C8: payload round trip — with json mode, publishing the object
x:1 delivers a decoded structure deep-equal to it; with the default
configuration, publishing the string "hello" delivers exactly "hello". -/
theorem C8_payload_round_trip :
    pubEvents { init { json := true } with subs := [subT], nextSid := 1 } "t"
        (JSVal.objCons "x" (JSVal.int 1) JSVal.objNil) none =
      [Ev.delivered 0 (JSVal.objCons "x" (JSVal.int 1) JSVal.objNil) none "t"]
    ∧ pubEvents { init {} with subs := [subT], nextSid := 1 } "t"
        (JSVal.str "hello") none =
      [Ev.delivered 0 (JSVal.str "hello") none "t"] :=
  ⟨rfl, rfl⟩

/-- C9: in JSON mode, publishing a non-serializable value (for which
JSON.stringify yields undefined, e.g. `undefined` or a function) makes
publish throw synchronously, and the throw happens before subscription
matching and delivery: the state is unchanged and no handler runs. -/
theorem C9_json_failure_is_clean (s : State) (subject : String)
    (message : JSVal) (replyTo : Option String)
    (hjson : s.useJson = true) (hbad : jsonStringify message = none) :
    (∃ e, publish s subject message replyTo = .error e)
    ∧ pubState s subject message replyTo = s
    ∧ pubEvents s subject message replyTo = [] := by
  have hpub : publish s subject message replyTo =
      .error "TypeError: argument must be a string, Buffer, or Array-like Object" := by
    unfold publish encodeContent
    rw [hjson, hbad]
    rfl
  refine ⟨⟨_, hpub⟩, ?_, ?_⟩
  · unfold pubState
    rw [hpub]
  · unfold pubEvents
    rw [hpub]

/-- Witness for C9: a json-mode client publishing `undefined`. -/
theorem C9_json_failure_is_clean_witness :
    (init { json := true }).useJson = true
    ∧ jsonStringify JSVal.undef = none
    ∧ ((∃ e, publish (init { json := true }) "t" JSVal.undef none = .error e)
        ∧ pubState (init { json := true }) "t" JSVal.undef none = init { json := true }
        ∧ pubEvents (init { json := true }) "t" JSVal.undef none = []) :=
  ⟨rfl, rfl, C9_json_failure_is_clean (init { json := true }) "t" JSVal.undef none rfl rfl⟩

/-! ### The delivery loop: order, bookkeeping, untouched records -/

theorem bumpSub_received (sb : Sub) : (bumpSub sb).1.received = sb.received + 1 := by
  simp only [bumpSub]
  split
  · rfl
  · rfl

theorem deliverStep_none {st : State} {evs : List Ev} {i : Nat}
    {d : JSVal} {r : Option String} {subj : String} (h : st.subs[i]? = none) :
    deliverStep d r subj (st, evs) i = (st, evs) := by
  unfold deliverStep
  rw [h]

theorem deliverStep_some {st : State} {evs : List Ev} {i : Nat} {sb : Sub}
    {d : JSVal} {r : Option String} {subj : String} (h : st.subs[i]? = some sb) :
    deliverStep d r subj (st, evs) i =
      (bumpState st i sb, evs ++ [Ev.delivered i d r subj]) := by
  unfold deliverStep
  rw [h]

theorem bumpState_subs_length (st : State) (i : Nat) (sb : Sub) :
    (bumpState st i sb).subs.length = st.subs.length := by
  simp [bumpState]

theorem bumpState_getElem_ne {st : State} {i j : Nat} (sb : Sub) (hne : j ≠ i) :
    (bumpState st i sb).subs[j]? = st.subs[j]? := by
  simp only [bumpState]
  exact List.getElem?_set_ne (fun hc => hne hc.symm)

theorem bumpState_getElem_eq {st : State} {i : Nat} {sb : Sub}
    (h : st.subs[i]? = some sb) :
    (bumpState st i sb).subs[i]? = some (bumpSub sb).1 := by
  have hi : i < st.subs.length := by
    rcases List.getElem?_eq_some.mp h with ⟨hlt, -⟩
    exact hlt
  simp only [bumpState]
  exact List.getElem?_set_eq_of_lt _ hi

theorem foldl_deliver_acc (d : JSVal) (r : Option String) (subj : String) :
    ∀ (sel : List Nat) (st : State) (evs : List Ev),
      sel.foldl (deliverStep d r subj) (st, evs) =
        ((deliver st sel d r subj).1, evs ++ (deliver st sel d r subj).2) := by
  intro sel
  induction sel with
  | nil =>
    intro st evs
    simp [deliver]
  | cons i sel ih =>
    intro st evs
    show sel.foldl (deliverStep d r subj) (deliverStep d r subj (st, evs) i) =
      ((deliver st (i :: sel) d r subj).1, evs ++ (deliver st (i :: sel) d r subj).2)
    have hd : deliver st (i :: sel) d r subj =
        sel.foldl (deliverStep d r subj) (deliverStep d r subj (st, []) i) := rfl
    cases h : st.subs[i]? with
    | none =>
      rw [deliverStep_none h, ih st evs, hd, deliverStep_none h]
      rw [show sel.foldl (deliverStep d r subj) (st, ([] : List Ev)) =
        deliver st sel d r subj from rfl]
    | some sb =>
      rw [hd]
      rw [deliverStep_some h, deliverStep_some h]
      simp only [List.nil_append]
      rw [ih (bumpState st i sb) (evs ++ [Ev.delivered i d r subj]),
          ih (bumpState st i sb) [Ev.delivered i d r subj]]
      simp

theorem deliver_cons_none {s : State} {i : Nat} {sel : List Nat}
    {d : JSVal} {r : Option String} {subj : String} (h : s.subs[i]? = none) :
    deliver s (i :: sel) d r subj = deliver s sel d r subj := by
  show sel.foldl (deliverStep d r subj) (deliverStep d r subj (s, []) i) =
    deliver s sel d r subj
  rw [deliverStep_none h]
  rfl

theorem deliver_cons_some {s : State} {i : Nat} {sel : List Nat} {sb : Sub}
    {d : JSVal} {r : Option String} {subj : String} (h : s.subs[i]? = some sb) :
    deliver s (i :: sel) d r subj =
      ((deliver (bumpState s i sb) sel d r subj).1,
       Ev.delivered i d r subj :: (deliver (bumpState s i sb) sel d r subj).2) := by
  show sel.foldl (deliverStep d r subj) (deliverStep d r subj (s, []) i) = _
  rw [deliverStep_some h, foldl_deliver_acc]
  simp

theorem deliver_events {d : JSVal} {r : Option String} {subj : String} :
    ∀ (sel : List Nat) (s : State), (∀ i ∈ sel, i < s.subs.length) →
      (deliver s sel d r subj).2 = sel.map (fun i => Ev.delivered i d r subj) := by
  intro sel
  induction sel with
  | nil => intro s _; rfl
  | cons i sel ih =>
    intro s hv
    have hi : i < s.subs.length := hv i (List.mem_cons_self ..)
    have hsb : s.subs[i]? = some s.subs[i] := List.getElem?_eq_getElem hi
    rw [deliver_cons_some hsb, List.map_cons]
    have hlen : (bumpState s i s.subs[i]).subs.length = s.subs.length :=
      bumpState_subs_length ..
    have := ih (bumpState s i s.subs[i])
      (fun j hj => hlen ▸ hv j (List.mem_cons_of_mem _ hj))
    rw [this]

theorem deliver_untouched {d : JSVal} {r : Option String} {subj : String} {j : Nat} :
    ∀ (sel : List Nat) (s : State), j ∉ sel →
      (deliver s sel d r subj).1.subs[j]? = s.subs[j]? := by
  intro sel
  induction sel with
  | nil => intro s _; rfl
  | cons i sel ih =>
    intro s hj
    have hne : j ≠ i := fun hc => hj (hc ▸ List.mem_cons_self ..)
    have hj' : j ∉ sel := fun hc => hj (List.mem_cons_of_mem _ hc)
    cases h : s.subs[i]? with
    | none => rw [deliver_cons_none h, ih s hj']
    | some sb =>
      rw [deliver_cons_some h]
      show (deliver (bumpState s i sb) sel d r subj).1.subs[j]? = s.subs[j]?
      rw [ih (bumpState s i sb) hj', bumpState_getElem_ne sb hne]

theorem deliver_received {d : JSVal} {r : Option String} {subj : String} :
    ∀ (sel : List Nat) (s : State), (∀ i ∈ sel, i < s.subs.length) →
      ∀ (j : Nat) (sb0 : Sub), s.subs[j]? = some sb0 →
        ∃ sb1, (deliver s sel d r subj).1.subs[j]? = some sb1 ∧
          sb1.received = sb0.received + sel.count j := by
  intro sel
  induction sel with
  | nil =>
    intro s _ j sb0 h
    exact ⟨sb0, h, by simp⟩
  | cons i sel ih =>
    intro s hv j sb0 h
    have hi : i < s.subs.length := hv i (List.mem_cons_self ..)
    have hsb : s.subs[i]? = some s.subs[i] := List.getElem?_eq_getElem hi
    rw [deliver_cons_some hsb]
    have hlen : (bumpState s i s.subs[i]).subs.length = s.subs.length :=
      bumpState_subs_length ..
    have hv' : ∀ a ∈ sel, a < (bumpState s i s.subs[i]).subs.length :=
      fun a ha => hlen ▸ hv a (List.mem_cons_of_mem _ ha)
    rcases Classical.em (j = i) with rfl | hne
    · have hsb0 : sb0 = s.subs[j] := by
        rw [hsb] at h
        exact (Option.some.inj h).symm
      have hbump : (bumpState s j s.subs[j]).subs[j]? = some (bumpSub s.subs[j]).1 :=
        bumpState_getElem_eq hsb
      rcases ih (bumpState s j s.subs[j]) hv' j (bumpSub s.subs[j]).1 hbump with
        ⟨sb1, hget, hrec⟩
      refine ⟨sb1, hget, ?_⟩
      rw [hrec, bumpSub_received, hsb0, List.count_cons_self]
      omega
    · have hpres : (bumpState s i s.subs[i]).subs[j]? = some sb0 := by
        rw [bumpState_getElem_ne _ hne, h]
      rcases ih (bumpState s i s.subs[i]) hv' j sb0 hpres with ⟨sb1, hget, hrec⟩
      refine ⟨sb1, hget, ?_⟩
      rw [hrec, List.count_cons_of_ne hne]

theorem selectIdx_nodup (subs : List Sub) (subject : String) :
    (selectIdx subs subject).Nodup :=
  (selectIdx_perm subs subject).nodup_iff.mpr
    (nodup_values_onePerQueue (fst_nodup_matchingSubs subs subject))

theorem selectIdx_lt (subs : List Sub) (subject : String) :
    ∀ i ∈ selectIdx subs subject, i < subs.length := by
  intro i hi
  rcases mem_selectIdx hi with ⟨p, hp, rfl⟩
  rcases List.getElem?_eq_some.mp (mem_matchingSubs.mp hp).1 with ⟨hlt, -⟩
  exact hlt

/-- C3 counterexample: with the registry [grouped sid 0, ungrouped
sid 1, grouped sid 2] all on subject "s", publish invokes the handlers
at registry indices 2 then 1 (here the group's object key was created
at its first member's position and the last member overwrote the
value), while the registry order among the selected subscriptions is
1 then 2 — so delivery is not in registry order among the selected
subscriptions. -/
theorem C3_delivery_order_counterexample :
    deliveredIdxs (pubEvents cState "s" (JSVal.str "m") none) = [2, 1]
    ∧ (List.range cState.subs.length).filter
        (fun i => (selectIdx cState.subs "s").contains i) = [1, 2]
    ∧ ([2, 1] : List Nat) ≠ [1, 2] :=
  ⟨rfl, rfl, by decide⟩

/-- C3 (amended): delivery is fully synchronous — `publish` returns the
complete list of handler invocations it performed — and for each
selected subscription publish increments that subscription's
receivedCount by exactly one and invokes its handler with
(decodedPayload, replyTo, subject), while non-selected subscriptions
are untouched.  The invocations happen in the enumeration order of the
internal queue-group object (`selectIdx`: array-index-like queue
names hoisted in ascending numeric order, then the remaining keys in
insertion order), an implementation detail that need not coincide with
registry order among the selected subscriptions. -/
theorem C3_delivery_amended (s : State) (subject : String) (message : JSVal)
    (replyTo : Option String) (s' : State) (evs : List Ev)
    (h : publish s subject message replyTo = .ok (s', evs)) :
    (∃ d, evs = (selectIdx s.subs subject).map
        (fun i => Ev.delivered i d replyTo subject))
    ∧ (∀ j, j ∉ selectIdx s.subs subject → s'.subs[j]? = s.subs[j]?)
    ∧ (∀ j sb, s.subs[j]? = some sb → j ∈ selectIdx s.subs subject →
        ∃ sb', s'.subs[j]? = some sb' ∧ sb'.received = sb.received + 1) := by
  rcases publish_ok_shape h with ⟨d, heq⟩
  have hs' : s' = (deliver s (selectIdx s.subs subject) d replyTo subject).1 :=
    congrArg Prod.fst heq
  have hevs : evs = (deliver s (selectIdx s.subs subject) d replyTo subject).2 :=
    congrArg Prod.snd heq
  have hv : ∀ i ∈ selectIdx s.subs subject, i < s.subs.length :=
    selectIdx_lt s.subs subject
  refine ⟨⟨d, ?_⟩, ?_, ?_⟩
  · rw [hevs, deliver_events _ s hv]
  · intro j hj
    rw [hs', deliver_untouched _ s hj]
  · intro j sb hget hj
    rcases deliver_received _ s hv j sb hget with ⟨sb', hget', hrec⟩
    refine ⟨sb', hs' ▸ hget', ?_⟩
    rw [hrec, List.count_eq_one_of_mem (selectIdx_nodup s.subs subject) hj]

/-- Witness for the amended C3 on the concrete interleaved registry:
publish delivers to indices 2 and 1 in selection order, bumps both by
one, and leaves index 0 untouched. -/
theorem C3_delivery_amended_witness :
    (∃ d, [Ev.delivered 2 (JSVal.str "m") none "s",
            Ev.delivered 1 (JSVal.str "m") none "s"] =
        (selectIdx cState.subs "s").map (fun i => Ev.delivered i d none "s"))
    ∧ (∀ j, j ∉ selectIdx cState.subs "s" →
        ({ cState with subs := [subQ1, { subU with received := 1 },
            { subQ2 with received := 1 }] } : State).subs[j]? = cState.subs[j]?)
    ∧ (∀ j sb, cState.subs[j]? = some sb → j ∈ selectIdx cState.subs "s" →
        ∃ sb', ({ cState with subs := [subQ1, { subU with received := 1 },
            { subQ2 with received := 1 }] } : State).subs[j]? = some sb'
          ∧ sb'.received = sb.received + 1) :=
  C3_delivery_amended cState "s" (JSVal.str "m") none
    { cState with subs := [subQ1, { subU with received := 1 },
        { subQ2 with received := 1 }] }
    [Ev.delivered 2 (JSVal.str "m") none "s",
     Ev.delivered 1 (JSVal.str "m") none "s"]
    rfl

/-! ### Timeout scheduling, survival, cancellation and firing -/

theorem findSid_any {subs : List Sub} {sid : Nat} {sb : Sub}
    (h : findSid subs sid = some sb) :
    subs.any (fun x => x.sid == sid) = true := by
  induction subs with
  | nil => cases h
  | cons x rest ih =>
    unfold findSid at h
    rw [List.any_cons]
    split at h
    · next hx => simp [hx]
    · simp [ih h]

theorem findSid_updateFirstSid (f : Sub → Sub) (hf : ∀ sb, (f sb).sid = sb.sid) :
    ∀ (subs : List Sub) (sid : Nat),
      findSid (updateFirstSid subs sid f) sid = (findSid subs sid).map f := by
  intro subs
  induction subs with
  | nil => intro sid; rfl
  | cons x rest ih =>
    intro sid
    rcases Classical.em (x.sid = sid) with hx | hx
    · simp [updateFirstSid, findSid, hx, hf x]
    · simp [updateFirstSid, findSid, hx, ih]

theorem bumpSub_cancel {sb : Sub} {h e : Nat} (href : sb.timeoutRef = some h)
    (hexp : sb.expected = some e) (hle : e ≤ sb.received + 1) :
    bumpSub sb = ({ sb with received := sb.received + 1, timeoutRef := none }, some h) := by
  simp only [bumpSub, href, hexp]
  rw [if_pos (by simp [hle])]

theorem bumpSub_cancel_inv {sb : Sub} {h : Nat} (hc : (bumpSub sb).2 = some h) :
    sb.timeoutRef = some h ∧ ∃ e, sb.expected = some e ∧ e ≤ sb.received + 1 := by
  simp only [bumpSub] at hc
  split at hc
  · next hit =>
    rcases Bool.and_eq_true_iff.mp hit with ⟨-, hmatch⟩
    refine ⟨hc, ?_⟩
    cases hexp : sb.expected with
    | none =>
      rw [hexp] at hmatch
      exact Bool.noConfusion hmatch
    | some e =>
      rw [hexp] at hmatch
      exact ⟨e, rfl, of_decide_eq_true hmatch⟩
  · exact Option.noConfusion hc

theorem bumpState_tasks_subset {st : State} {i : Nat} {sb : Sub} {tk : Timer}
    (h : tk ∈ (bumpState st i sb).tasks) : tk ∈ st.tasks := by
  simp only [bumpState] at h
  split at h
  · exact (List.mem_filter.mp h).1
  · exact h

theorem bumpState_task_kept {st : State} {i : Nat} {sb : Sub} {tk : Timer}
    (h : tk ∈ st.tasks)
    (hk : ∀ hh, (bumpSub sb).2 = some hh → timerHandle tk ≠ some hh) :
    tk ∈ (bumpState st i sb).tasks := by
  simp only [bumpState]
  cases hc : (bumpSub sb).2 with
  | none => exact h
  | some hh => exact List.mem_filter.mpr ⟨h, by simp [hk hh hc]⟩

theorem bumpState_tasks_of_cancel {st : State} {i : Nat} {sb : Sub} {h : Nat}
    (hc : (bumpSub sb).2 = some h) :
    ∀ tk ∈ (bumpState st i sb).tasks, timerHandle tk ≠ some h := by
  intro tk htk
  simp only [bumpState, hc] at htk
  simpa using (List.mem_filter.mp htk).2

theorem deliver_tasks_subset {d : JSVal} {r : Option String} {subj : String} :
    ∀ (sel : List Nat) (s : State) (tk : Timer),
      tk ∈ (deliver s sel d r subj).1.tasks → tk ∈ s.tasks := by
  intro sel
  induction sel with
  | nil => intro s tk h; exact h
  | cons i sel ih =>
    intro s tk h
    cases hg : s.subs[i]? with
    | none =>
      rw [deliver_cons_none hg] at h
      exact ih s tk h
    | some sb =>
      rw [deliver_cons_some hg] at h
      exact bumpState_tasks_subset (ih (bumpState s i sb) tk h)

theorem deliver_task_kept {d : JSVal} {r : Option String} {subj : String} :
    ∀ (sel : List Nat) (s : State) (tk : Timer),
      sel.Nodup → (∀ i ∈ sel, i < s.subs.length) → tk ∈ s.tasks →
      (∀ j ∈ sel, ∀ sb, s.subs[j]? = some sb →
        ∀ hh, (bumpSub sb).2 = some hh → timerHandle tk ≠ some hh) →
      tk ∈ (deliver s sel d r subj).1.tasks := by
  intro sel
  induction sel with
  | nil => intro s tk _ _ h _; exact h
  | cons i sel ih =>
    intro s tk hnd hv h hk
    have hi : i < s.subs.length := hv i (List.mem_cons_self ..)
    have hsb : s.subs[i]? = some s.subs[i] := List.getElem?_eq_getElem hi
    rw [deliver_cons_some hsb]
    show tk ∈ (deliver (bumpState s i s.subs[i]) sel d r subj).1.tasks
    apply ih
    · exact (List.nodup_cons.mp hnd).2
    · intro a ha
      rw [bumpState_subs_length]
      exact hv a (List.mem_cons_of_mem _ ha)
    · exact bumpState_task_kept h
        (fun hh hc => hk i (List.mem_cons_self ..) s.subs[i] hsb hh hc)
    · intro j hj sb hget hh hc
      have hne : j ≠ i := fun hcontra => (List.nodup_cons.mp hnd).1 (hcontra ▸ hj)
      rw [bumpState_getElem_ne _ hne] at hget
      exact hk j (List.mem_cons_of_mem _ hj) sb hget hh hc

theorem deliver_selected {d : JSVal} {r : Option String} {subj : String} :
    ∀ (sel : List Nat) (s : State), (∀ i ∈ sel, i < s.subs.length) → sel.Nodup →
      ∀ (j : Nat) (sb : Sub), s.subs[j]? = some sb → j ∈ sel →
        (deliver s sel d r subj).1.subs[j]? = some (bumpSub sb).1 := by
  intro sel
  induction sel with
  | nil => intro s _ _ j sb _ hj; cases hj
  | cons i sel ih =>
    intro s hv hnd j sb hget hj
    rcases List.mem_cons.mp hj with rfl | hj'
    · rw [deliver_cons_some hget]
      show (deliver (bumpState s j sb) sel d r subj).1.subs[j]? = some (bumpSub sb).1
      rw [deliver_untouched sel (bumpState s j sb) (List.nodup_cons.mp hnd).1]
      exact bumpState_getElem_eq hget
    · have hne : j ≠ i := fun hcontra => (List.nodup_cons.mp hnd).1 (hcontra ▸ hj')
      have hi : i < s.subs.length := hv i (List.mem_cons_self ..)
      have hsb : s.subs[i]? = some s.subs[i] := List.getElem?_eq_getElem hi
      rw [deliver_cons_some hsb]
      show (deliver (bumpState s i s.subs[i]) sel d r subj).1.subs[j]? =
        some (bumpSub sb).1
      apply ih
      · intro a ha
        rw [bumpState_subs_length]
        exact hv a (List.mem_cons_of_mem _ ha)
      · exact (List.nodup_cons.mp hnd).2
      · rw [bumpState_getElem_ne _ hne]
        exact hget
      · exact hj'

theorem deliver_cancel_clears {d : JSVal} {r : Option String} {subj : String} :
    ∀ (sel : List Nat) (s : State), (∀ i ∈ sel, i < s.subs.length) → sel.Nodup →
      ∀ (j h : Nat) (sb : Sub), s.subs[j]? = some sb → j ∈ sel →
        (bumpSub sb).2 = some h →
        ∀ tk ∈ (deliver s sel d r subj).1.tasks, timerHandle tk ≠ some h := by
  intro sel
  induction sel with
  | nil => intro s _ _ j h sb _ hj; cases hj
  | cons i sel ih =>
    intro s hv hnd j h sb hget hj hc tk htk
    rcases List.mem_cons.mp hj with rfl | hj'
    · rw [deliver_cons_some hget] at htk
      exact bumpState_tasks_of_cancel hc tk
        (deliver_tasks_subset sel (bumpState s j sb) tk htk)
    · have hne : j ≠ i := fun hcontra => (List.nodup_cons.mp hnd).1 (hcontra ▸ hj')
      have hi : i < s.subs.length := hv i (List.mem_cons_self ..)
      have hsb : s.subs[i]? = some s.subs[i] := List.getElem?_eq_getElem hi
      rw [deliver_cons_some hsb] at htk
      refine ih (bumpState s i s.subs[i]) ?_ (List.nodup_cons.mp hnd).2 j h sb ?_
        hj' hc tk htk
      · intro a ha
        rw [bumpState_subs_length]
        exact hv a (List.mem_cons_of_mem _ ha)
      · rw [bumpState_getElem_ne _ hne]
        exact hget

theorem elapse_fire_mem {s : State} {h sid due t : Nat}
    (hmem : Timer.fire h sid due ∈ s.tasks) (hdue : due ≤ s.clock + t) :
    Ev.timedOut h sid ∈ (elapse s t).2 := by
  simp only [elapse]
  apply List.mem_append.mpr
  right
  have h1 : Timer.fire h sid due ∈ s.tasks.filter (timerDue (s.clock + t)) :=
    List.mem_filter.mpr ⟨hmem, by simp [timerDue, hdue]⟩
  have h2 : Timer.fire h sid due ∈
      (s.tasks.filter (timerDue (s.clock + t))).filter (fun tk => !(isNextTick tk)) :=
    List.mem_filter.mpr ⟨h1, by simp [isNextTick]⟩
  exact List.mem_map.mpr ⟨_, (sortBy_perm _ _).mem_iff.mpr h2, rfl⟩

theorem elapse_no_handle {s : State} {h t : Nat}
    (hno : ∀ tk ∈ s.tasks, timerHandle tk ≠ some h) (sid : Nat) :
    Ev.timedOut h sid ∉ (elapse s t).2 := by
  intro hmem
  simp only [elapse] at hmem
  rcases List.mem_append.mp hmem with h1 | h1
  · rcases List.mem_map.mp h1 with ⟨tk, htk, hev⟩
    have hnt : isNextTick tk = true := (List.mem_filter.mp htk).2
    cases tk with
    | emitDisconnect d => exact Ev.noConfusion hev
    | emitConnect d => exact Bool.noConfusion hnt
    | fire h' sid' d => exact Bool.noConfusion hnt
  · rcases List.mem_map.mp h1 with ⟨tk, htk, hev⟩
    have htk2 : tk ∈ (s.tasks.filter (timerDue (s.clock + t))).filter
        (fun tk => !(isNextTick tk)) := (sortBy_perm _ _).mem_iff.mp htk
    have htks : tk ∈ s.tasks := (List.mem_filter.mp (List.mem_filter.mp htk2).1).1
    cases tk with
    | emitConnect d => exact Ev.noConfusion hev
    | emitDisconnect d => exact Ev.noConfusion hev
    | fire h' sid' d =>
      have hh : h' = h := (Ev.timedOut.inj hev).1
      subst hh
      exact hno _ htks rfl

/-- C4: for every state, subscription id, duration and expected count:
timeout(id, durationMs, expectedCount, cb), when the id is found,
records expectedCount on that subscription and schedules cb(id) at
clock + durationMs; a scheduled callback still pending when its due
time passes is invoked with the id; deliveries that leave every
selected subscription holding this callback's handle below its
expected count keep the callback pending; and a delivery that brings a
located subscription's receivedCount up to its expectedCount cancels
and clears the pending timeout — the callback's task is gone and it is
never invoked, no matter how much time later elapses.  Concretely,
timeout(id, 50, 2, cb) followed by one matching publish within 50ms
invokes cb(id); followed by two matching publishes, cb is never
invoked. -/
theorem C4_timeout_expectation :
    (∀ (s : State) (sid dur e : Nat) (sb : Sub), findSid s.subs sid = some sb →
        Timer.fire s.nextTimer sid (s.clock + dur) ∈ (timeoutOp s sid dur e).tasks
        ∧ findSid (timeoutOp s sid dur e).subs sid =
            some { sb with expected := some e, timeoutRef := some s.nextTimer })
    ∧ (∀ (s : State) (h sid due t : Nat), Timer.fire h sid due ∈ s.tasks →
        due ≤ s.clock + t → Ev.timedOut h sid ∈ (elapse s t).2)
    ∧ (∀ (s : State) (subject : String) (message : JSVal) (replyTo : Option String)
          (s' : State) (evs : List Ev) (tk : Timer),
        publish s subject message replyTo = .ok (s', evs) → tk ∈ s.tasks →
        (∀ j ∈ selectIdx s.subs subject, ∀ sb, s.subs[j]? = some sb →
          sb.timeoutRef = timerHandle tk →
          ∀ e, sb.expected = some e → sb.received + 1 < e) →
        tk ∈ s'.tasks)
    ∧ (∀ (s : State) (subject : String) (message : JSVal) (replyTo : Option String)
          (s' : State) (evs : List Ev) (j h e : Nat) (sb : Sub),
        publish s subject message replyTo = .ok (s', evs) →
        j ∈ selectIdx s.subs subject → s.subs[j]? = some sb →
        sb.timeoutRef = some h → sb.expected = some e → e ≤ sb.received + 1 →
        (∃ sb', s'.subs[j]? = some sb' ∧ sb'.timeoutRef = none
            ∧ sb'.received = sb.received + 1)
        ∧ (∀ tk ∈ s'.tasks, timerHandle tk ≠ some h)
        ∧ ∀ (t sid : Nat), Ev.timedOut h sid ∉ (elapse s' t).2)
    ∧ (∀ m1 : String,
        runEvents (init {}) [Op.doSubscribe "s" none, Op.doTimeout 0 50 2,
            Op.doPublish "s" (JSVal.str m1) none, Op.doElapse 50] =
          [Ev.delivered 0 (JSVal.str m1) none "s", Ev.timedOut 0 0])
    ∧ ∀ (m1 m2 : String) (T : Nat),
        runEvents (init {}) [Op.doSubscribe "s" none, Op.doTimeout 0 50 2,
            Op.doPublish "s" (JSVal.str m1) none, Op.doPublish "s" (JSVal.str m2) none,
            Op.doElapse T] =
          [Ev.delivered 0 (JSVal.str m1) none "s",
           Ev.delivered 0 (JSVal.str m2) none "s"] := by
  refine ⟨?_, ?_, ?_, ?_, fun m1 => rfl, fun m1 m2 T => rfl⟩
  · intro s sid dur e sb h
    unfold timeoutOp
    rw [if_pos (findSid_any h)]
    refine ⟨by simp, ?_⟩
    show findSid (updateFirstSid s.subs sid
      (fun sb => { sb with expected := some e, timeoutRef := some s.nextTimer })) sid =
      some { sb with expected := some e, timeoutRef := some s.nextTimer }
    rw [findSid_updateFirstSid
      (fun sb => { sb with expected := some e, timeoutRef := some s.nextTimer })
      (fun x => rfl), h]
    rfl
  · intro s h sid due t hmem hdue
    exact elapse_fire_mem hmem hdue
  · intro s subject message replyTo s' evs tk hpub htk hkeep
    rcases publish_ok_shape hpub with ⟨d0, heq⟩
    have hs' : s' = (deliver s (selectIdx s.subs subject) d0 replyTo subject).1 :=
      congrArg Prod.fst heq
    rw [hs']
    refine deliver_task_kept _ s tk (selectIdx_nodup s.subs subject)
      (selectIdx_lt s.subs subject) htk ?_
    intro j hj sb hget hh hc hcontra
    rcases bumpSub_cancel_inv hc with ⟨href, e0, hexp, hle⟩
    have hlt := hkeep j hj sb hget (href.trans hcontra.symm) e0 hexp
    omega
  · intro s subject message replyTo s' evs j h e sb hpub hj hget href hexp hle
    rcases publish_ok_shape hpub with ⟨d0, heq⟩
    have hs' : s' = (deliver s (selectIdx s.subs subject) d0 replyTo subject).1 :=
      congrArg Prod.fst heq
    have hcancel : bumpSub sb =
        ({ sb with received := sb.received + 1, timeoutRef := none }, some h) :=
      bumpSub_cancel href hexp hle
    have hclean : ∀ tk ∈ s'.tasks, timerHandle tk ≠ some h := by
      intro tk htk
      rw [hs'] at htk
      exact deliver_cancel_clears _ s (selectIdx_lt s.subs subject)
        (selectIdx_nodup s.subs subject) j h sb hget hj (by rw [hcancel]) tk htk
    refine ⟨⟨(bumpSub sb).1, ?_, ?_, ?_⟩, hclean, ?_⟩
    · rw [hs']
      exact deliver_selected _ s (selectIdx_lt s.subs subject)
        (selectIdx_nodup s.subs subject) j sb hget hj
    · rw [hcancel]
    · rw [hcancel]
    · intro t sid'
      exact elapse_no_handle hclean sid'

/-- Witness for C4 on the one-subscription client `tState`:
timeout(0, 50, 2) schedules the callback at 50 and records the
expectation; the pending callback fires once 50ms elapse; with
timeout(0, 50, 1), a single publish reaches the expectation, clears
the timeout, and the callback does not fire even 70ms later. -/
theorem C4_timeout_expectation_witness :
    (Timer.fire 0 0 50 ∈ (timeoutOp tState 0 50 2).tasks
      ∧ findSid (timeoutOp tState 0 50 2).subs 0 =
          some { subT with expected := some 2, timeoutRef := some 0 })
    ∧ Ev.timedOut 0 0 ∈ (elapse (timeoutOp tState 0 50 2) 50).2
    ∧ (∃ sb', (pubState (timeoutOp tState 0 50 1) "t" (JSVal.str "m") none).subs[0]? =
          some sb'
        ∧ sb'.timeoutRef = none
        ∧ sb'.received =
            ({ subT with expected := some 1, timeoutRef := some 0 } : Sub).received + 1)
    ∧ Ev.timedOut 0 0 ∉
        (elapse (pubState (timeoutOp tState 0 50 1) "t" (JSVal.str "m") none) 70).2 :=
  ⟨C4_timeout_expectation.1 tState 0 50 2 subT rfl,
   C4_timeout_expectation.2.1 (timeoutOp tState 0 50 2) 0 0 50 50 (by decide) (by decide),
   (C4_timeout_expectation.2.2.2.1 (timeoutOp tState 0 50 1) "t" (JSVal.str "m") none
      (pubState (timeoutOp tState 0 50 1) "t" (JSVal.str "m") none)
      (pubEvents (timeoutOp tState 0 50 1) "t" (JSVal.str "m") none) 0 0 1
      { subT with expected := some 1, timeoutRef := some 0 }
      rfl (by decide) rfl rfl rfl (by decide)).1,
   (C4_timeout_expectation.2.2.2.1 (timeoutOp tState 0 50 1) "t" (JSVal.str "m") none
      (pubState (timeoutOp tState 0 50 1) "t" (JSVal.str "m") none)
      (pubEvents (timeoutOp tState 0 50 1) "t" (JSVal.str "m") none) 0 0 1
      { subT with expected := some 1, timeoutRef := some 0 }
      rfl (by decide) rfl rfl rfl (by decide)).2.2 70 0⟩

theorem deliver_setConn (b : Bool) (d : JSVal) (r : Option String) (subj : String) :
    ∀ (sel : List Nat) (s : State),
      deliver (setConn s b) sel d r subj =
        (setConn (deliver s sel d r subj).1 b, (deliver s sel d r subj).2) := by
  intro sel
  induction sel with
  | nil => intro s; rfl
  | cons i sel ih =>
    intro s
    cases h : s.subs[i]? with
    | none =>
      have h' : (setConn s b).subs[i]? = none := h
      rw [deliver_cons_none h', deliver_cons_none h, ih s]
    | some sb =>
      have h' : (setConn s b).subs[i]? = some sb := h
      rw [deliver_cons_some h', deliver_cons_some h]
      have hbs : bumpState (setConn s b) i sb = setConn (bumpState s i sb) b := rfl
      rw [hbs, ih (bumpState s i sb)]

/-- C10: none of the registry operations consults the connected flag —
on two states differing only in `connected`, subscribe, unsubscribe,
timeout and publish return the same values, cause the same handler
invocations, and perform the same registry mutations, carrying the
`connected` difference along unchanged; being connected is never a
precondition for messaging. -/
theorem C10_connected_is_ignored (s : State) (b : Bool) (subject : String)
    (queue : Option String) (sid dur expected : Nat) (message : JSVal)
    (replyTo : Option String) :
    subscribe (setConn s b) subject queue =
      ((subscribe s subject queue).1, setConn (subscribe s subject queue).2 b)
    ∧ unsubscribe (setConn s b) sid = setConn (unsubscribe s sid) b
    ∧ timeoutOp (setConn s b) sid dur expected =
        setConn (timeoutOp s sid dur expected) b
    ∧ publish (setConn s b) subject message replyTo =
        (publish s subject message replyTo).map (fun p => (setConn p.1 b, p.2)) := by
  refine ⟨rfl, rfl, ?_, ?_⟩
  · unfold timeoutOp
    have e3 : (setConn s b).subs = s.subs := rfl
    have e4 : (setConn s b).nextTimer = s.nextTimer := rfl
    have e5 : (setConn s b).clock = s.clock := rfl
    have e6 : (setConn s b).tasks = s.tasks := rfl
    rw [e3, e4, e5, e6]
    cases h : s.subs.any (fun sb => sb.sid == sid) with
    | false => rfl
    | true => rfl
  · unfold publish
    have e1 : (setConn s b).useJson = s.useJson := rfl
    have e2 : (setConn s b).preserveBuffers = s.preserveBuffers := rfl
    have e3 : (setConn s b).subs = s.subs := rfl
    rw [e1, e2, e3]
    cases hb : bufferFrom (encodeContent s.useJson message) with
    | error e => rfl
    | ok payload =>
      dsimp only
      cases hd : decodeDelivery s.useJson s.preserveBuffers payload with
      | error e => rfl
      | ok delivery =>
        dsimp only
        rw [deliver_setConn]
        rfl

end MockNats
